import Mathlib

/-!
Verification of the news-dashboard fetch/normalize/cache pipeline.

This file gives a shallow embedding, in Lean, of the core logic of the
application (src/App.tsx, src/components/TabSettingsModal.tsx):

* URL resolution (`getRssUrl`), request building, response handling;
* per-item normalization: summary stripping, title/source splitting,
  image-URL fallback chain, id synthesis;
* sorting by publication date (stable, descending) and truncation to 12;
* the per-tab cache with a 5-minute TTL and the stale-fallback error path;
* the tab-settings modal operations (add / delete / max-tabs input);
* the read-ids / hidden-sources set operations.

Modelling conventions:
* JavaScript strings are Lean `String`s; operations the code performs on
  them (`split`, `includes`, `trim`, `startsWith`, `encodeURIComponent`,
  the tag-stripping regex) are embedded as executable functions over
  `List Char` below, mirroring the ECMAScript semantics the code relies on.
* A JS value that the code tests for truthiness (`item.thumbnail`,
  `item.author`, ...) is modelled as `Option String`; `none` stands for
  `undefined`/`null` and `some ""` for the empty string, both falsy.
* Dates: the upstream `pubDate` string is modelled by the instant it
  parses to (an `Int`, milliseconds since epoch, i.e. `Date.getTime()`).
  The article field `pubDate` is stored in the source as the ISO-8601
  rendering of that instant and compared by re-parsing; since the ISO
  rendering is order-isomorphic to the instant, the field is modelled by
  the instant itself.  The locale rendering `toLocaleDateString("ja-JP")`
  is modelled by an injective function of the instant.
* The browser `DOMParser` + `querySelector("img")` + `getAttribute("src")`
  used by `extractImageFromHtml` is modelled by a first-`<img>`-tag
  scanner over the markup, faithful on well-formed markup whose
  attributes are double-quoted (the shape the code is written for).
* `Array.prototype.sort` is stable per ES2019; a stable sort over a
  total preorder is extensionally unique, so it is modelled by a stable
  insertion sort (which the kernel can evaluate).
* The network (`fetch` + JSON parse) is an oracle passed in as a
  `NetResponse` value; any exception path (transport error, non-ok HTTP,
  JSON failure, a throw during normalization) is a failure constructor.
-/

namespace NewsApp

/-! ## Characters and JS string primitives -/

def chSpace : Char := Char.ofNat 32
def chQuote : Char := Char.ofNat 34
def chDash : Char := Char.ofNat 45
def chLT : Char := Char.ofNat 60
def chGT : Char := Char.ofNat 62

/-- JS `String.prototype.trim` whitespace test (restricted to the ASCII
whitespace actually occurring in the feeds; JS also trims some exotic
Unicode spaces). -/
def jsWhitespace (c : Char) : Bool :=
  c = chSpace || c = Char.ofNat 9 || c = Char.ofNat 10 || c = Char.ofNat 13

/-- JS `String.prototype.trim`. -/
def jsTrim (s : String) : String :=
  String.mk (((s.toList.dropWhile jsWhitespace).reverse.dropWhile jsWhitespace).reverse)

/-- JS `String.prototype.startsWith`. -/
def jsStartsWith (s pre : String) : Bool :=
  pre.toList.isPrefixOf s.toList

/-- Drop everything up to and including the first occurrence of `pat`;
`none` when `pat` does not occur.  (Search helper for `includes` and for
the attribute scanner.) -/
def afterSub (pat : List Char) : List Char → Option (List Char)
  | [] => if pat.isEmpty then some [] else none
  | c :: cs =>
    if pat.isPrefixOf (c :: cs) then some ((c :: cs).drop pat.length)
    else afterSub pat cs

/-- JS `String.prototype.includes`, over char lists. -/
def containsSub (pat : List Char) (l : List Char) : Bool :=
  (afterSub pat l).isSome

/-- Longest prefix not containing `stop`. -/
def takeUntilChar (stop : Char) (l : List Char) : List Char :=
  l.takeWhile (fun c => c ≠ stop)

/-- JS `String.prototype.split` on a fixed non-empty separator
`c0 :: rest`: leftmost, non-overlapping.  `acc` holds the (reversed)
chars of the part being built; `fuel` bounds the recursion (structural,
so the kernel can evaluate it) and never runs out when it starts at the
input length. -/
def splitOnSepFuel (c0 : Char) (rest : List Char) :
    Nat → List Char → List Char → List (List Char)
  | 0, l, acc => [acc.reverse ++ l]
  | _ + 1, [], acc => [acc.reverse]
  | fuel + 1, c :: cs, acc =>
    if (c0 :: rest).isPrefixOf (c :: cs) then
      acc.reverse :: splitOnSepFuel c0 rest fuel (cs.drop rest.length) []
    else
      splitOnSepFuel c0 rest fuel cs (c :: acc)

def splitOnSep (c0 : Char) (rest : List Char) (l : List Char) : List (List Char) :=
  splitOnSepFuel c0 rest l.length l []

/-- The separator `" - "` that the title/source split uses. -/
def sepDashRest : List Char := [chDash, chSpace]

def sepDash : List Char := chSpace :: sepDashRest

/-- JS `title.split(" - ")`. -/
def splitDash (s : String) : List String :=
  (splitOnSep chSpace sepDashRest s.toList).map String.mk

/-- JS `Array.prototype.join(sep)`. -/
def joinSep (sep : String) : List String → String
  | [] => ""
  | [x] => x
  | x :: y :: xs => x ++ sep ++ joinSep sep (y :: xs)

/-- Char-list version of `joinSep`, for the split/join lemmas. -/
def joinSepL (sep : List Char) : List (List Char) → List Char
  | [] => []
  | [x] => x
  | x :: y :: xs => x ++ sep ++ joinSepL sep (y :: xs)

/-- The global-replace of the regex `<[^>]*>?` by the empty string, used
to strip markup from the summary: every `<` opens a region that runs to
the next `>` (inclusive) or to the end of the string. -/
def stripTagsAux : Bool → List Char → List Char
  | _, [] => []
  | true, c :: cs => if c = chGT then stripTagsAux false cs else stripTagsAux true cs
  | false, c :: cs => if c = chLT then stripTagsAux true cs else c :: stripTagsAux false cs

def stripTags (s : String) : String :=
  String.mk (stripTagsAux false s.toList)

/-! ## encodeURIComponent -/

/-- Characters `encodeURIComponent` leaves unescaped:
alphanumerics and `- _ . ! ~ * ' ( )`. -/
def isUnreservedURIChar (c : Char) : Bool :=
  (65 ≤ c.toNat && c.toNat ≤ 90) || (97 ≤ c.toNat && c.toNat ≤ 122) ||
  (48 ≤ c.toNat && c.toNat ≤ 57) ||
  [45, 95, 46, 33, 126, 42, 39, 40, 41].contains c.toNat

/-- UTF-8 bytes of a character (as `Nat`s below 256). -/
def utf8Bytes (c : Char) : List Nat :=
  let n := c.toNat
  if n < 128 then [n]
  else if n < 2048 then [192 + n / 64, 128 + n % 64]
  else if n < 65536 then [224 + n / 4096, 128 + (n / 64) % 64, 128 + n % 64]
  else [240 + n / 262144, 128 + (n / 4096) % 64, 128 + (n / 64) % 64, 128 + n % 64]

/-- Uppercase hex digit of `n < 16`. -/
def hexDigit (n : Nat) : Char :=
  if n < 10 then Char.ofNat (48 + n) else Char.ofNat (55 + n)

def percentByte (b : Nat) : List Char :=
  [Char.ofNat 37, hexDigit (b / 16), hexDigit (b % 16)]

/-- JS `encodeURIComponent`. -/
def encodeURIComponent (s : String) : String :=
  String.mk (s.toList.flatMap (fun c =>
    if isUnreservedURIChar c then [c] else (utf8Bytes c).flatMap percentByte))

/-! ## JS truthiness for optional string fields -/

/-- Predicate view: `truthyStr o = some s` exactly when the JS value modelled by `o` is
truthy (a non-empty string), and then `s` is that string. -/
def truthyStr : Option String → Option String
  | some s => if s = "" then none else some s
  | none => none

def jsTruthy (o : Option String) : Bool :=
  (truthyStr o).isSome

/-! ## Data model (src/types.ts) -/

/-- Record `TabConfig` from src/types.ts. -/
structure TabConfig where
  id : String
  label : String
  icon : String
  keyword : String
deriving DecidableEq, Repr

/-- Record `NewsArticle` from src/types.ts.  `pubDate` is the parsed instant
(see the module comment); `date` its locale rendering. -/
structure NewsArticle where
  id : String
  category : String
  title : String
  date : String
  pubDate : Int
  summary : String
  imageUrl : String
  source : String
  link : String
deriving DecidableEq, Repr

/-- An upstream item of the rss2json response
(`data.items[i]` as used by `fetchNews`).  Fields the code tests for
truthiness are `Option String`; `enclosureLink` models `enclosure?.link`
(`none` covers both a missing enclosure and a missing link). -/
structure RssItem where
  title : String
  description : Option String
  content : Option String
  author : Option String
  thumbnail : Option String
  enclosureLink : Option String
  pubDate : Int
  guid : Option String
  link : String
deriving DecidableEq, Repr

/-- One entry of `newsCache.current` (src/App.tsx line 39). -/
structure CacheEntry where
  data : List NewsArticle
  timestamp : Int
deriving DecidableEq, Repr

/-- The cache map `newsCache.current : tab id → CacheEntry`, modelled as
an association list with at most one binding per key in use. -/
abbrev Cache : Type := List (String × CacheEntry)

/-- Lookup `newsCache.current[tabId]`. -/
def lookupCache : Cache → String → Option CacheEntry
  | [], _ => none
  | (k, e) :: rest, t => if k = t then some e else lookupCache rest t

/-- Assignment `newsCache.current[tabId] = entry`. -/
def setCache : Cache → String → CacheEntry → Cache
  | [], t, e => [(t, e)]
  | (k, e0) :: rest, t, e =>
    if k = t then (k, e) :: rest else (k, e0) :: setCache rest t e

/-- What the single upstream request can produce, as observed by the
`try` block of `fetchNews`:
* `ok feedTitle items` — HTTP ok, JSON parsed, `data.status === "ok"`;
* `transportError` — `fetch` rejected, or `!response.ok`, or the JSON
  body failed to parse;
* `apiError msg` — `data.status !== "ok"` (throws `data.message`);
* `malformed` — the response parsed but normalization threw (e.g. an
  invalid date fed to `toISOString`).
Everything except `ok` lands in the `catch` block. -/
inductive NetResponse where
  | ok (feedTitle : Option String) (items : List RssItem)
  | transportError
  | apiError (msg : String)
  | malformed
deriving DecidableEq, Repr

def NetResponse.isFailure : NetResponse → Bool
  | .ok _ _ => false
  | _ => true

/-- Observable outcome of one `fetchNews` call:
* `noTab` — the early return when the tab id is not in the tab list;
* `cacheHit l` — fresh cache entry served, no network touched;
* `success l` — network fetch succeeded, `l` set as the news list;
* `staleFallback l` — the catch block found a cache entry and served it
  with the soft (stale-data) error message;
* `noData` — the catch block had nothing cached: hard error, no
  articles shown. -/
inductive FetchOutcome where
  | noTab
  | cacheHit (articles : List NewsArticle)
  | success (articles : List NewsArticle)
  | staleFallback (articles : List NewsArticle)
  | noData
deriving DecidableEq, Repr

/-- The articles the call delivers for display (`setNewsList`); the hard
error path delivers none. -/
def FetchOutcome.shownArticles : FetchOutcome → List NewsArticle
  | .cacheHit l => l
  | .success l => l
  | .staleFallback l => l
  | .noData => []
  | .noTab => []

/-- The soft (stale-data) error annotation is set exactly on the
fallback path. -/
def FetchOutcome.isSoftError : FetchOutcome → Bool
  | .staleFallback _ => true
  | _ => false

/-- The hard (no-data) error is set exactly when the catch block found
no cache entry. -/
def FetchOutcome.isHardError : FetchOutcome → Bool
  | .noData => true
  | _ => false

/-- Result of one `fetchNews` call: outcome, the cache map afterwards,
whether the network was contacted and with which request URL. -/
structure FetchResult where
  outcome : FetchOutcome
  cache : Cache
  networkCalled : Bool
  requestUrl : Option String
deriving DecidableEq, Repr

/-! ## URL resolution and request building (src/App.tsx lines 146-152, 191) -/

/-- The cache TTL: `CACHE_DURATION = 5 * 60 * 1000` milliseconds
(src/App.tsx line 15). -/
def CACHE_DURATION : Int := 5 * 60 * 1000

/-- Function `getRssUrl` (src/App.tsx lines 147-152): a keyword starting with an
http(s) scheme is used verbatim, anything else goes through the fixed
Google-News search template with the keyword URL-encoded. -/
def getRssUrl (keyword : String) : String :=
  if jsStartsWith keyword "http://" || jsStartsWith keyword "https://" then
    keyword
  else
    "https://news.google.com/rss/search?q=" ++ encodeURIComponent keyword
      ++ "&hl=ja&gl=JP&ceid=JP:ja"

/-- The rss2json request URL built at src/App.tsx line 191. -/
def apiRequestUrl (keyword : String) : String :=
  "https://api.rss2json.com/v1/api.json?rss_url="
    ++ encodeURIComponent (getRssUrl keyword)

/-! ## Image extraction (src/App.tsx lines 154-166, 213-237) -/

/-- Scan for the first `<img` tag opener (followed by a delimiter, as a
tag name boundary) and return the characters after it. -/
def findImgTag : List Char → Option (List Char)
  | [] => none
  | c :: cs =>
    if ("<img".toList).isPrefixOf (c :: cs) then
      match (c :: cs).drop 4 with
      | [] => some []
      | d :: rest =>
        if d = chSpace || d = chGT || d = Char.ofNat 47
            || d = Char.ofNat 9 || d = Char.ofNat 10 || d = Char.ofNat 13 then
          some (d :: rest)
        else findImgTag cs
    else findImgTag cs

/-- Function `extractImageFromHtml` (src/App.tsx lines 155-166): parse the markup,
take the first `img` element, read its `src` attribute; `null` when the
input is falsy, no `img` exists, or it has no `src` attribute.  The
DOMParser is modelled by a scanner over the first `<img ...>` region,
looking for a double-quoted `src` attribute. -/
def extractImageFromHtml (htmlContent : String) : Option String :=
  if htmlContent = "" then none
  else
    match findImgTag htmlContent.toList with
    | none => none
    | some rest =>
      let attrs := takeUntilChar chGT rest
      match afterSub (" src=".toList ++ [chQuote]) attrs with
      | none => none
      | some rest2 => some (String.mk (takeUntilChar chQuote rest2))

/-- Steps 1-3 of the image decision (src/App.tsx lines 214-227):
thumbnail, else enclosure link, else an `<img>` from the description. -/
def imageStep1 (item : RssItem) : Option String :=
  if jsTruthy item.thumbnail then item.thumbnail
  else if jsTruthy item.enclosureLink then item.enclosureLink
  else if jsTruthy item.description then
    extractImageFromHtml (item.description.getD "")
  else none

/-- Step 4 (src/App.tsx lines 230-232): if nothing truthy yet and a
content body exists, try an `<img>` from the content. -/
def imageStep2 (item : RssItem) : Option String :=
  if jsTruthy (imageStep1 item) then imageStep1 item
  else if jsTruthy item.content then
    extractImageFromHtml (item.content.getD "")
  else imageStep1 item

/-- Step 5 fallback (src/App.tsx line 236): deterministic placeholder
seeded by the raw item title. -/
def picsumPlaceholder (title : String) : String :=
  "https://picsum.photos/seed/" ++ encodeURIComponent title ++ "/800/450"

/-- The final `imageUrl` of a normalized article. -/
def computeImageUrl (item : RssItem) : String :=
  match truthyStr (imageStep2 item) with
  | some s => s
  | none => picsumPlaceholder item.title

/-! ## Title/source and summary (src/App.tsx lines 198-211) -/

/-- Fallback chain `item.author || data.feed.title || "Unknown Source"`
(src/App.tsx line 205). -/
def sourceFallback (author feedTitle : Option String) : String :=
  match truthyStr author with
  | some a => a
  | none =>
    match truthyStr feedTitle with
    | some f => f
    | none => "Unknown Source"

/-- Lines 204-211 plus the `source.trim()` at line 249: when the raw
title contains `" - "`, split on it, the popped last part is the source
and the rejoined rest the title; otherwise the author/feed fallback.
The source is trimmed in both cases. -/
def deriveTitleSource (rawTitle : String) (author feedTitle : Option String) :
    String × String :=
  if containsSub sepDash rawTitle.toList then
    let parts := splitDash rawTitle
    (joinSep " - " parts.dropLast, jsTrim (parts.getLastD ""))
  else
    (rawTitle, jsTrim (sourceFallback author feedTitle))

/-- Lines 200-202: tag-stripped, 100-char-truncated summary with an
ellipsis, or the fixed placeholder when the description is falsy. -/
def cleanSummary (description : Option String) : String :=
  match truthyStr description with
  | some d => String.mk ((stripTags d).toList.take 100) ++ "..."
  | none => "記事の要約はありません。"

/-- Rendering `toLocaleDateString("ja-JP")`, modelled as an injective rendering of
the instant (its exact text is irrelevant to every claim). -/
def toLocaleDateStringJaJP (t : Int) : String :=
  "ja-JP:" ++ toString t

/-- The per-item mapping of src/App.tsx lines 198-251. -/
def normalizeItem (tabId : String) (feedTitle : Option String)
    (index : Nat) (item : RssItem) : NewsArticle :=
  let ts := deriveTitleSource item.title item.author feedTitle
  { id :=
      match truthyStr item.guid with
      | some g => g
      | none => tabId ++ "-" ++ toString index ++ "-" ++ toString item.pubDate
    category := tabId
    title := ts.1
    date := toLocaleDateStringJaJP item.pubDate
    pubDate := item.pubDate
    summary := cleanSummary item.description
    imageUrl := computeImageUrl item
    source := ts.2
    link := item.link }

/-- Mapping `data.items.map((item, index) => ...)`. -/
def normalizeItems (tabId : String) (feedTitle : Option String)
    (items : List RssItem) : List NewsArticle :=
  items.enum.map (fun p => normalizeItem tabId feedTitle p.1 p.2)

/-! ## Sort and truncate (src/App.tsx lines 253-255) -/

/-- The sort comparator `(a, b) => new Date(b.pubDate).getTime() -
new Date(a.pubDate).getTime()` induces this total preorder: `a` may come
before `b` exactly when `b.pubDate ≤ a.pubDate` (descending). -/
def articleDescLE (a b : NewsArticle) : Bool :=
  b.pubDate ≤ a.pubDate

/-- Stable insertion into a descending-sorted list: the new element goes
after every element whose key is at least its own, so ties keep the
earlier element first, exactly as the stable ES2019
`Array.prototype.sort` does. -/
def insertDesc (a : NewsArticle) : List NewsArticle → List NewsArticle
  | [] => [a]
  | b :: bs => if b.pubDate < a.pubDate then a :: b :: bs else b :: insertDesc a bs

def sortDescAux : List NewsArticle → List NewsArticle → List NewsArticle
  | acc, [] => acc
  | acc, a :: as => sortDescAux (insertDesc a acc) as

/-- The stable descending sort by `pubDate` of src/App.tsx line 254.
A stable sort over a total preorder is extensionally unique, so stable
insertion sort models the engine's stable sort exactly. -/
def sortDesc (l : List NewsArticle) : List NewsArticle :=
  sortDescAux [] l

/-- Composition of `.sort(...)` followed by `.slice(0, 12)` (lines 254-255). -/
def sortAndTruncate (l : List NewsArticle) : List NewsArticle :=
  (sortDesc l).take 12

/-! ## fetchNews (src/App.tsx lines 168-277) -/

/-- The `try`/`catch` part of `fetchNews`, reached when the cache check
did not serve a fresh entry.  On success the list is normalized, sorted,
truncated, stored in the cache and shown; on any failure the catch block
serves the (possibly expired) cache entry with a soft error, or reports
a hard error when none exists.  The cache is mutated only on success. -/
def fetchRemote (cache : Cache) (now : Int) (tabId : String)
    (url : String) (resp : NetResponse) : FetchResult :=
  match resp with
  | .ok feedTitle items =>
    let mapped := sortAndTruncate (normalizeItems tabId feedTitle items)
    ⟨.success mapped, setCache cache tabId ⟨mapped, now⟩, true, some url⟩
  | _ =>
    match lookupCache cache tabId with
    | some e => ⟨.staleFallback e.data, cache, true, some url⟩
    | none => ⟨.noData, cache, true, some url⟩

/-- Function `fetchNews(tabId, currentTabs)` (src/App.tsx lines 168-277): find the
tab (early return if absent), serve the cache when the entry is younger
than `CACHE_DURATION`, otherwise contact the network. -/
def fetchNews (tabs : List TabConfig) (cache : Cache) (now : Int)
    (tabId : String) (resp : NetResponse) : FetchResult :=
  match tabs.find? (fun t => t.id == tabId) with
  | none => ⟨.noTab, cache, false, none⟩
  | some tab =>
    match lookupCache cache tabId with
    | some e =>
      if now - e.timestamp < CACHE_DURATION then
        ⟨.cacheHit e.data, cache, false, none⟩
      else fetchRemote cache now tabId (apiRequestUrl tab.keyword) resp
    | none => fetchRemote cache now tabId (apiRequestUrl tab.keyword) resp

/-! ## Application state and the settings-save handler
(src/App.tsx lines 33-46, 107-114) -/

/-- The soft (stale-fallback) error message, src/App.tsx line 270. -/
def softErrorMsg : String := "最新の取得に失敗しましたが、以前のデータを表示しています。"

/-- The hard (no-data) error message, src/App.tsx line 272. -/
def hardErrorMsg : String := "ニュースの読み込みに失敗しました。時間をおいて再試行してください。"

/-- The pieces of component state that `fetchNews` and
`handleSaveSettings` read or write. -/
structure AppState where
  tabs : List TabConfig
  maxTabs : Int
  activeTabId : String
  cache : Cache
  newsList : List NewsArticle
  error : Option String
deriving DecidableEq, Repr

/-- How one `FetchResult` is folded back into the component state:
`setError(null)` at entry, then the branch-specific `setNewsList` /
`setError` calls of src/App.tsx lines 182, 263, 269-272. -/
def applyOutcome (st : AppState) (r : FetchResult) : AppState :=
  let st1 := { st with cache := r.cache, error := none }
  match r.outcome with
  | .noTab => st1
  | .cacheHit l => { st1 with newsList := l }
  | .success l => { st1 with newsList := l }
  | .staleFallback l => { st1 with newsList := l, error := some softErrorMsg }
  | .noData => { st1 with error := some hardErrorMsg }

def runFetch (st : AppState) (tabId : String) (now : Int)
    (resp : NetResponse) : AppState :=
  applyOutcome st (fetchNews st.tabs st.cache now tabId resp)

/-- Handler `handleSaveSettings` (src/App.tsx lines 107-114): install the edited
tabs and max-tab count, reset the whole cache map to `{}`, clear the
news list, and refetch the active tab against the new tab list. -/
def handleSaveSettings (st : AppState) (newTabs : List TabConfig)
    (newMaxTabs : Int) (now : Int) (resp : NetResponse) : AppState :=
  let st1 := { st with
    tabs := newTabs, maxTabs := newMaxTabs, cache := [], newsList := [] }
  runFetch st1 st.activeTabId now resp

/-! ## Read / hidden sets (src/App.tsx lines 116-144) -/

/-- Action `markAsRead`: add the article id to the read set. -/
def markAsRead (readIds : Finset String) (id : String) : Finset String :=
  insert id readIds

/-- Action `hideSource`: add the source name to the hidden set. -/
def hideSource (hiddenSources : Finset String) (source : String) : Finset String :=
  insert source hiddenSources

/-- Action `unhideSource`: delete the source name from the hidden set. -/
def unhideSource (hiddenSources : Finset String) (source : String) : Finset String :=
  hiddenSources.erase source

/-- Action `resetHiddenSources`: clear the hidden set. -/
def resetHiddenSources (_hiddenSources : Finset String) : Finset String :=
  ∅

/-! ## Tab-settings modal (src/components/TabSettingsModal.tsx, the
maxTabs-aware revision whose props match `App`) -/

/-- The modal working copy: the staged tab list and staged max count. -/
structure ModalState where
  editingTabs : List TabConfig
  editingMaxTabs : Int
deriving DecidableEq, Repr

/-- The tab `handleAddTab` appends (its id embeds `Date.now()`). -/
def newTabDefault (now : Int) : TabConfig :=
  { id := "tab-" ++ toString now, label := "新規タブ", icon := "fa-hashtag",
    keyword := "ニュース" }

/-- Handler `handleAddTab`: silently refuse when at or over the staged maximum,
otherwise append a default tab. -/
def handleAddTab (st : ModalState) (now : Int) : ModalState :=
  if st.editingMaxTabs ≤ (st.editingTabs.length : Int) then st
  else { st with editingTabs := st.editingTabs ++ [newTabDefault now] }

/-- Handler `handleDeleteTab`: refuse (alert) when at most one tab remains,
otherwise remove the tab at `index` (`filter((_, i) => i !== index)`). -/
def handleDeleteTab (st : ModalState) (index : Nat) : ModalState :=
  if st.editingTabs.length ≤ 1 then st
  else { st with editingTabs :=
    (st.editingTabs.enum.filter (fun p => p.1 ≠ index)).map Prod.snd }

/-- The max-tabs number input handler: `parseInt`, then accept only when
`1 ≤ val ≤ 20`; `NaN` (`none`) or out-of-range input leaves the staged
value unchanged. -/
def handleMaxTabsChange (st : ModalState) (input : Option Int) : ModalState :=
  match input with
  | none => st
  | some val =>
    if 1 ≤ val ∧ val ≤ 20 then { st with editingMaxTabs := val } else st

/-- Handler `handleSave`: what the modal hands to `App.handleSaveSettings`. -/
def handleSave (st : ModalState) : List TabConfig × Int :=
  (st.editingTabs, st.editingMaxTabs)

/-! ## Cache helper lemmas -/

theorem lookup_setCache_self (cache : Cache) (t : String) (e : CacheEntry) :
    lookupCache (setCache cache t e) t = some e := by
  induction cache with
  | nil => simp [setCache, lookupCache]
  | cons p rest ih =>
    obtain ⟨k, e0⟩ := p
    by_cases hk : k = t <;> simp [setCache, lookupCache, hk, ih]

theorem lookup_setCache_ne (cache : Cache) (t k : String) (e : CacheEntry)
    (hk : k ≠ t) : lookupCache (setCache cache t e) k = lookupCache cache k := by
  induction cache with
  | nil => simp [setCache, lookupCache, Ne.symm hk]
  | cons p rest ih =>
    obtain ⟨k0, e0⟩ := p
    by_cases h0 : k0 = t
    · subst h0
      simp [setCache, lookupCache, Ne.symm hk]
    · simp [setCache, lookupCache, h0, ih]

/-- On the success path `fetchRemote` is fully determined. -/
theorem fetchRemote_ok (cache : Cache) (now : Int) (tabId url : String)
    (feedTitle : Option String) (items : List RssItem) :
    fetchRemote cache now tabId url (.ok feedTitle items) =
      ⟨.success (sortAndTruncate (normalizeItems tabId feedTitle items)),
        setCache cache tabId
          ⟨sortAndTruncate (normalizeItems tabId feedTitle items), now⟩,
        true, some url⟩ := rfl

/-- On every failing response `fetchRemote` leaves the cache untouched
and never reports success. -/
theorem fetchRemote_failure (cache : Cache) (now : Int) (tabId url : String)
    (resp : NetResponse) (hf : resp.isFailure = true) :
    (fetchRemote cache now tabId url resp).cache = cache
    ∧ ∀ L, (fetchRemote cache now tabId url resp).outcome ≠ .success L := by
  cases resp with
  | ok ft items => simp [NetResponse.isFailure] at hf
  | transportError =>
    cases hl : lookupCache cache tabId <;> simp [fetchRemote, hl]
  | apiError msg =>
    cases hl : lookupCache cache tabId <;> simp [fetchRemote, hl]
  | malformed =>
    cases hl : lookupCache cache tabId <;> simp [fetchRemote, hl]

/-- Any `fetchNews` call either leaves the cache exactly as it was (and
did not succeed), or succeeded and overwrote exactly the entry of the
requested tab. -/
theorem fetchNews_cache_spec (tabs : List TabConfig) (cache : Cache)
    (now : Int) (tabId : String) (resp : NetResponse) :
    ((fetchNews tabs cache now tabId resp).cache = cache
      ∧ ∀ L, (fetchNews tabs cache now tabId resp).outcome ≠ .success L)
    ∨ (∃ L, (fetchNews tabs cache now tabId resp).outcome = .success L
      ∧ (fetchNews tabs cache now tabId resp).cache
          = setCache cache tabId ⟨L, now⟩) := by
  unfold fetchNews
  cases hfind : tabs.find? (fun t => t.id == tabId) with
  | none => left; simp
  | some tab =>
    have remote : ∀ url : String,
        ((fetchRemote cache now tabId url resp).cache = cache
          ∧ ∀ L, (fetchRemote cache now tabId url resp).outcome ≠ .success L)
        ∨ (∃ L, (fetchRemote cache now tabId url resp).outcome = .success L
          ∧ (fetchRemote cache now tabId url resp).cache
              = setCache cache tabId ⟨L, now⟩) := by
      intro url
      cases resp with
      | ok ft items =>
        right
        refine ⟨sortAndTruncate (normalizeItems tabId ft items), ?_, ?_⟩ <;>
          simp [fetchRemote_ok]
      | transportError => left; exact fetchRemote_failure cache now tabId url _ rfl
      | apiError msg => left; exact fetchRemote_failure cache now tabId url _ rfl
      | malformed => left; exact fetchRemote_failure cache now tabId url _ rfl
    cases hl : lookupCache cache tabId with
    | some e =>
      by_cases hfresh : now - e.timestamp < CACHE_DURATION
      · left; simp [hfresh]
      · simpa [hfresh] using remote (apiRequestUrl tab.keyword)
    | none => simpa using remote (apiRequestUrl tab.keyword)

/-- A failing response never mutates the cache, whatever path is taken. -/
theorem fetchNews_failure_cache (tabs : List TabConfig) (cache : Cache)
    (now : Int) (tabId : String) (resp : NetResponse)
    (hf : resp.isFailure = true) :
    (fetchNews tabs cache now tabId resp).cache = cache := by
  rcases fetchNews_cache_spec tabs cache now tabId resp with ⟨h, _⟩ | ⟨L, hL, _⟩
  · exact h
  · exfalso
    unfold fetchNews at hL
    cases hfind : tabs.find? (fun t => t.id == tabId) with
    | none => rw [hfind] at hL; simp at hL
    | some tab =>
      rw [hfind] at hL
      have hremote : ∀ url, (fetchRemote cache now tabId url resp).outcome
          ≠ .success L := fun url => (fetchRemote_failure cache now tabId url resp hf).2 L
      cases hl : lookupCache cache tabId with
      | some e =>
        rw [hl] at hL
        by_cases hfresh : now - e.timestamp < CACHE_DURATION
        · simp [hfresh] at hL
        · simp [hfresh] at hL; exact hremote _ hL
      | none => rw [hl] at hL; exact hremote _ hL

/-- Other tabs' cache entries are never touched by a fetch for `tabId`. -/
theorem fetchNews_cache_frame (tabs : List TabConfig) (cache : Cache)
    (now : Int) (tabId : String) (resp : NetResponse) (k : String)
    (hk : k ≠ tabId) :
    lookupCache (fetchNews tabs cache now tabId resp).cache k
      = lookupCache cache k := by
  rcases fetchNews_cache_spec tabs cache now tabId resp with ⟨h, _⟩ | ⟨L, _, h⟩
  · rw [h]
  · rw [h, lookup_setCache_ne _ _ _ _ hk]

/-- A successful fetch stores exactly the delivered list, stamped with
the fetch time, under the requested tab id. -/
theorem fetchNews_success_cache (tabs : List TabConfig) (cache : Cache)
    (now : Int) (tabId : String) (resp : NetResponse) (L : List NewsArticle)
    (h : (fetchNews tabs cache now tabId resp).outcome = .success L) :
    (fetchNews tabs cache now tabId resp).cache
      = setCache cache tabId ⟨L, now⟩ := by
  rcases fetchNews_cache_spec tabs cache now tabId resp with ⟨_, hno⟩ | ⟨L2, hL2, hc⟩
  · exact absurd h (hno L)
  · rw [h] at hL2
    cases hL2
    exact hc

/-! ## Concrete sample values used by witnesses and counterexamples -/

def articleSample : NewsArticle :=
  { id := "a1", category := "tab-1", title := "t", date := "d", pubDate := 0,
    summary := "s", imageUrl := "i", source := "src", link := "l" }

def tabSample : TabConfig :=
  { id := "tab-1", label := "バス減便", icon := "fa-bus", keyword := "バス 減便" }

def tabSample2 : TabConfig :=
  { id := "tab-2", label := "ガジェット", icon := "fa-laptop",
    keyword := "https://www.gizmodo.jp/index.xml" }

def cacheSample : Cache := [("tab-1", ⟨[articleSample], 1000⟩)]

/-! ## C8: feed-address resolution -/

/-- C8: a keyword that is an absolute http(s) URL (it starts with an
http or https scheme) is used verbatim as the feed address; any other
keyword is URL-encoded into the fixed Google-News search template with
the Japanese locale parameters. -/
theorem getRssUrl_resolution (keyword : String) :
    ((jsStartsWith keyword "http://" = true ∨ jsStartsWith keyword "https://" = true) →
      getRssUrl keyword = keyword)
    ∧ (jsStartsWith keyword "http://" = false →
       jsStartsWith keyword "https://" = false →
      getRssUrl keyword =
        "https://news.google.com/rss/search?q=" ++ encodeURIComponent keyword
          ++ "&hl=ja&gl=JP&ceid=JP:ja") := by
  constructor
  · rintro (h | h) <;> simp [getRssUrl, h]
  · intro h1 h2
    simp [getRssUrl, h1, h2]

theorem getRssUrl_resolution_witness :
    getRssUrl "https://www.gizmodo.jp/index.xml" = "https://www.gizmodo.jp/index.xml"
    ∧ getRssUrl "bus cuts"
        = "https://news.google.com/rss/search?q=bus%20cuts&hl=ja&gl=JP&ceid=JP:ja" := by
  constructor
  · exact (getRssUrl_resolution "https://www.gizmodo.jp/index.xml").1
      (Or.inr (by decide))
  · rw [(getRssUrl_resolution "bus cuts").2 (by decide) (by decide)]
    decide

/-! ## C2: fresh cache entries are served without network access -/

/-- C2: for a tab present in the tab list, if a cache entry exists whose
age is strictly below the 5-minute TTL, a fetch (no force-refresh)
returns exactly the cached article list, makes no network request and
leaves the cache unchanged; consequently a second fetch within the TTL
window after a successful fetch returns exactly the articles the first
one delivered, again without a network call. -/
theorem cacheHit_within_ttl :
    (∀ (tabs : List TabConfig) (cache : Cache) (now : Int) (tabId : String)
        (resp : NetResponse) (tab : TabConfig) (e : CacheEntry),
      tabs.find? (fun t => t.id == tabId) = some tab →
      lookupCache cache tabId = some e →
      now - e.timestamp < CACHE_DURATION →
      fetchNews tabs cache now tabId resp = ⟨.cacheHit e.data, cache, false, none⟩)
    ∧ (∀ (tabs : List TabConfig) (cache : Cache) (t0 t1 : Int) (tabId : String)
        (resp1 resp2 : NetResponse) (tab : TabConfig) (L : List NewsArticle),
      tabs.find? (fun t => t.id == tabId) = some tab →
      (fetchNews tabs cache t0 tabId resp1).outcome = .success L →
      t1 - t0 < CACHE_DURATION →
      fetchNews tabs (fetchNews tabs cache t0 tabId resp1).cache t1 tabId resp2
        = ⟨.cacheHit L, (fetchNews tabs cache t0 tabId resp1).cache, false, none⟩) := by
  have part1 : ∀ (tabs : List TabConfig) (cache : Cache) (now : Int) (tabId : String)
      (resp : NetResponse) (tab : TabConfig) (e : CacheEntry),
      tabs.find? (fun t => t.id == tabId) = some tab →
      lookupCache cache tabId = some e →
      now - e.timestamp < CACHE_DURATION →
      fetchNews tabs cache now tabId resp = ⟨.cacheHit e.data, cache, false, none⟩ := by
    intro tabs cache now tabId resp tab e htab hc hfresh
    unfold fetchNews
    rw [htab, hc]
    simp [hfresh]
  refine ⟨part1, ?_⟩
  intro tabs cache t0 t1 tabId resp1 resp2 tab L htab hsucc httl
  have hcache := fetchNews_success_cache tabs cache t0 tabId resp1 L hsucc
  have hlook : lookupCache (fetchNews tabs cache t0 tabId resp1).cache tabId
      = some ⟨L, t0⟩ := by
    rw [hcache]; exact lookup_setCache_self _ _ _
  exact part1 tabs _ t1 tabId resp2 tab ⟨L, t0⟩ htab hlook (by simpa using httl)

theorem cacheHit_within_ttl_witness :
    fetchNews [tabSample] cacheSample 2000 "tab-1" .transportError
      = ⟨.cacheHit [articleSample], cacheSample, false, none⟩
    ∧ fetchNews [tabSample]
        (fetchNews [tabSample] [] 0 "tab-1" (.ok none [])).cache 1 "tab-1" .malformed
      = ⟨.cacheHit [], (fetchNews [tabSample] [] 0 "tab-1" (.ok none [])).cache,
          false, none⟩ := by
  constructor
  · exact (cacheHit_within_ttl).1 [tabSample] cacheSample 2000 "tab-1"
      .transportError tabSample ⟨[articleSample], 1000⟩ (by decide) (by decide)
      (by decide)
  · exact (cacheHit_within_ttl).2 [tabSample] [] 0 1 "tab-1" (.ok none [])
      .malformed tabSample [] (by decide) (by decide) (by decide)

/-! ## C3: stale fallback on failure -/

/-- C3: when the upstream request fails in any way (transport error,
non-ok HTTP, API status not "ok", or a throw while processing), a tab
with a cache entry — even one whose TTL has expired — is served exactly
that entry's article list with the soft (stale-data) error annotation,
while a tab with no cache entry gets the hard-error outcome showing no
articles. -/
theorem failure_fallback (tabs : List TabConfig) (cache : Cache) (now : Int)
    (tabId : String) (tab : TabConfig) (resp : NetResponse)
    (htab : tabs.find? (fun t => t.id == tabId) = some tab)
    (hf : resp.isFailure = true) :
    (∀ e : CacheEntry, lookupCache cache tabId = some e →
      CACHE_DURATION ≤ now - e.timestamp →
      fetchNews tabs cache now tabId resp
        = ⟨.staleFallback e.data, cache, true, some (apiRequestUrl tab.keyword)⟩
      ∧ (FetchOutcome.staleFallback e.data).shownArticles = e.data
      ∧ (FetchOutcome.staleFallback e.data).isSoftError = true)
    ∧ (lookupCache cache tabId = none →
      fetchNews tabs cache now tabId resp
        = ⟨.noData, cache, true, some (apiRequestUrl tab.keyword)⟩
      ∧ FetchOutcome.noData.shownArticles = []
      ∧ FetchOutcome.noData.isHardError = true) := by
  constructor
  · intro e hc hstale
    have hnotfresh : ¬(now - e.timestamp < CACHE_DURATION) := not_lt.mpr hstale
    refine ⟨?_, rfl, rfl⟩
    unfold fetchNews
    rw [htab, hc]
    simp only [hnotfresh, if_false]
    cases resp with
    | ok ft items => simp [NetResponse.isFailure] at hf
    | transportError => simp [fetchRemote, hc]
    | apiError msg => simp [fetchRemote, hc]
    | malformed => simp [fetchRemote, hc]
  · intro hc
    refine ⟨?_, rfl, rfl⟩
    unfold fetchNews
    rw [htab, hc]
    cases resp with
    | ok ft items => simp [NetResponse.isFailure] at hf
    | transportError => simp [fetchRemote, hc]
    | apiError msg => simp [fetchRemote, hc]
    | malformed => simp [fetchRemote, hc]

theorem failure_fallback_witness :
    fetchNews [tabSample] cacheSample 999999 "tab-1" .transportError
      = ⟨.staleFallback [articleSample], cacheSample, true,
          some (apiRequestUrl tabSample.keyword)⟩
    ∧ fetchNews [tabSample2] [] 0 "tab-2" (.apiError "err")
      = ⟨.noData, [], true, some (apiRequestUrl tabSample2.keyword)⟩ := by
  constructor
  · exact ((failure_fallback [tabSample] cacheSample 999999 "tab-1" tabSample
      .transportError (by decide) rfl).1 ⟨[articleSample], 1000⟩ (by decide)
      (by decide)).1
  · exact ((failure_fallback [tabSample2] [] 0 "tab-2" tabSample2
      (.apiError "err") (by decide) rfl).2 rfl).1

/-! ## C10: the cache is written only on the success path -/

/-- C10: a failing fetch leaves the cache map exactly as it was — no
entry is created, overwritten or removed for any tab; entries of tabs
other than the fetched one are never touched; and whenever the cache did
change, the call succeeded and wrote exactly the delivered list under
the fetched tab id. -/
theorem failure_cache_frame (tabs : List TabConfig) (cache : Cache)
    (now : Int) (tabId : String) (resp : NetResponse) :
    (resp.isFailure = true → (fetchNews tabs cache now tabId resp).cache = cache)
    ∧ (∀ k : String, k ≠ tabId →
        lookupCache (fetchNews tabs cache now tabId resp).cache k
          = lookupCache cache k)
    ∧ ((fetchNews tabs cache now tabId resp).cache ≠ cache →
        ∃ L, (fetchNews tabs cache now tabId resp).outcome = .success L
          ∧ (fetchNews tabs cache now tabId resp).cache
              = setCache cache tabId ⟨L, now⟩) := by
  refine ⟨fetchNews_failure_cache tabs cache now tabId resp,
    fetchNews_cache_frame tabs cache now tabId resp, ?_⟩
  intro hne
  rcases fetchNews_cache_spec tabs cache now tabId resp with ⟨h, _⟩ | ⟨L, hL, hc⟩
  · exact absurd h hne
  · exact ⟨L, hL, hc⟩

theorem failure_cache_frame_witness :
    (fetchNews [tabSample] cacheSample 999999 "tab-1" .malformed).cache = cacheSample
    ∧ lookupCache
        (fetchNews [tabSample, tabSample2] cacheSample 999999 "tab-1"
          (.ok none [])).cache "tab-2"
      = lookupCache cacheSample "tab-2" := by
  constructor
  · exact (failure_cache_frame [tabSample] cacheSample 999999 "tab-1" .malformed).1 rfl
  · exact (failure_cache_frame [tabSample, tabSample2] cacheSample 999999 "tab-1"
      (.ok none [])).2.1 "tab-2" (by decide)

/-! ## C6: effect of saving tab settings on the cache -/

def cacheEntrySampleB : CacheEntry := ⟨[], 500⟩

def appStateSample : AppState :=
  { tabs := [tabSample, tabSample2], maxTabs := 7, activeTabId := "tab-1",
    cache := [("tab-1", ⟨[articleSample], 1000⟩), ("tab-2", cacheEntrySampleB)],
    newsList := [], error := none }

def tabSampleEdited : TabConfig := { tabSample with keyword := "バス 廃止" }

/-- C6 counterexample: editing tab-1's keyword and saving also destroys
tab-2's cache entry — `handleSaveSettings` resets the whole cache map,
so the claim that every other tab's entry is left unchanged fails. -/
theorem saveSettings_not_per_tab :
    lookupCache appStateSample.cache "tab-2" = some cacheEntrySampleB
    ∧ lookupCache (handleSaveSettings appStateSample [tabSampleEdited, tabSample2]
        7 2000 .transportError).cache "tab-2" = none := by
  constructor
  · decide
  · decide

/-- C6 amended: saving an edited tab configuration invalidates the
edited tab's cache entry, but not only it — the whole cache map is reset
before the active tab is refetched, so afterwards no tab other than the
active one has any cache entry. -/
theorem saveSettings_clears_whole_cache (st : AppState)
    (newTabs : List TabConfig) (newMaxTabs : Int) (now : Int)
    (resp : NetResponse) (k : String) (hk : k ≠ st.activeTabId) :
    lookupCache (handleSaveSettings st newTabs newMaxTabs now resp).cache k
      = none := by
  unfold handleSaveSettings runFetch
  have happly : ∀ (st1 : AppState) (r : FetchResult),
      (applyOutcome st1 r).cache = r.cache := by
    intro st1 r
    obtain ⟨o, c, n, u⟩ := r
    cases o <;> rfl
  rw [happly]
  rw [fetchNews_cache_frame _ _ _ _ _ _ hk]
  rfl

theorem saveSettings_clears_whole_cache_witness :
    lookupCache (handleSaveSettings appStateSample [tabSampleEdited, tabSample2]
      7 2000 (.ok none [])).cache "tab-2" = none :=
  saveSettings_clears_whole_cache appStateSample [tabSampleEdited, tabSample2]
    7 2000 (.ok none []) "tab-2" (by decide)

/-! ## C7: tab-count bounds in the settings modal -/

def modalStateSample : ModalState := ⟨[tabSample], 7⟩

/-- C7 counterexample: the max-tabs input does not clamp to the range
1-20 — entering 25 does not yield the clamp value 20; the input is
simply rejected and the staged value stays 7. -/
theorem maxTabs_not_clamped :
    (handleMaxTabsChange modalStateSample (some 25)).editingMaxTabs = 7
    ∧ (7 : Int) ≠ 20 := by
  constructor
  · decide
  · decide

/-- C7 amended: adding a tab at or over the staged maximum is refused
with no change, deleting a tab when only one remains is refused with no
change, and the max-tabs input accepts exactly the integers in the range
1-20 — an out-of-range or unparsable value leaves the setting unchanged
(rather than being clamped to the range). -/
theorem tab_bounds_enforced :
    (∀ (st : ModalState) (now : Int),
      st.editingMaxTabs ≤ (st.editingTabs.length : Int) →
      handleAddTab st now = st)
    ∧ (∀ (st : ModalState) (i : Nat),
      st.editingTabs.length ≤ 1 → handleDeleteTab st i = st)
    ∧ (∀ (st : ModalState) (v : Int), 1 ≤ v → v ≤ 20 →
      (handleMaxTabsChange st (some v)).editingMaxTabs = v)
    ∧ (∀ (st : ModalState) (v : Int), ¬(1 ≤ v ∧ v ≤ 20) →
      handleMaxTabsChange st (some v) = st)
    ∧ (∀ st : ModalState, handleMaxTabsChange st none = st) := by
  refine ⟨?_, ?_, ?_, ?_, ?_⟩
  · intro st now h
    simp [handleAddTab, h]
  · intro st i h
    simp [handleDeleteTab, h]
  · intro st v h1 h2
    simp [handleMaxTabsChange, h1, h2]
  · intro st v h
    simp [handleMaxTabsChange, h]
  · intro st
    rfl

theorem tab_bounds_enforced_witness :
    handleAddTab ⟨[tabSample], 1⟩ 42 = ⟨[tabSample], 1⟩
    ∧ handleDeleteTab ⟨[tabSample], 7⟩ 0 = ⟨[tabSample], 7⟩
    ∧ (handleMaxTabsChange ⟨[tabSample], 7⟩ (some 12)).editingMaxTabs = 12
    ∧ handleMaxTabsChange ⟨[tabSample], 7⟩ (some 25) = ⟨[tabSample], 7⟩ := by
  refine ⟨?_, ?_, ?_, ?_⟩
  · exact tab_bounds_enforced.1 ⟨[tabSample], 1⟩ 42 (by decide)
  · exact tab_bounds_enforced.2.1 ⟨[tabSample], 7⟩ 0 (by decide)
  · exact tab_bounds_enforced.2.2.1 ⟨[tabSample], 7⟩ 12 (by decide) (by decide)
  · exact tab_bounds_enforced.2.2.2.1 ⟨[tabSample], 7⟩ 25 (by decide)

/-! ## C9: growth of the read / hidden sets -/

/-- C9 counterexample: `unhideSource` is a user action that removes a
single element from the hidden-sources set, so the two tracker sets do
not grow monotonically under every user action. -/
theorem unhide_removes_single_element :
    unhideSource {"A"} "A" = ∅
    ∧ ¬ ({"A"} : Finset String) ⊆ unhideSource {"A"} "A" := by
  constructor
  · simp [unhideSource]
  · simp [unhideSource]

/-- C9 amended: the read set grows monotonically (`markAsRead` only
inserts) and the hidden set grows under `hideSource`; the hidden set is
clearable as a whole by `resetHiddenSources`; but `unhideSource` removes
the single given element (it is exactly `erase`, a shrinking action). -/
theorem tracker_set_semantics :
    (∀ (s : Finset String) (id : String), s ⊆ markAsRead s id)
    ∧ (∀ (s : Finset String) (x : String), s ⊆ hideSource s x)
    ∧ (∀ (s : Finset String) (x : String),
        unhideSource s x = s.erase x ∧ unhideSource s x ⊆ s)
    ∧ (∀ s : Finset String, resetHiddenSources s = ∅) := by
  refine ⟨?_, ?_, ?_, ?_⟩
  · intro s id
    exact Finset.subset_insert id s
  · intro s x
    exact Finset.subset_insert x s
  · intro s x
    exact ⟨rfl, Finset.erase_subset x s⟩
  · intro s
    rfl

/-! ## Split/join lemmas for the title/source derivation -/

theorem splitOnSepFuel_length_pos (c0 : Char) (rest : List Char) :
    ∀ (fuel : Nat) (l acc : List Char),
      1 ≤ (splitOnSepFuel c0 rest fuel l acc).length := by
  intro fuel
  induction fuel with
  | zero => intro l acc; simp [splitOnSepFuel]
  | succ n ih =>
    intro l acc
    cases l with
    | nil => simp [splitOnSepFuel]
    | cons c cs =>
      by_cases h : (c0 :: rest).isPrefixOf (c :: cs)
      · simp [splitOnSepFuel, h]
      · simpa [splitOnSepFuel, h] using ih cs (c :: acc)

theorem splitOnSepFuel_length_ge_two (c0 : Char) (rest : List Char) :
    ∀ (fuel : Nat) (l acc : List Char), l.length ≤ fuel →
      containsSub (c0 :: rest) l = true →
      2 ≤ (splitOnSepFuel c0 rest fuel l acc).length := by
  intro fuel
  induction fuel with
  | zero =>
    intro l acc hl hc
    have hnil : l = [] := List.eq_nil_of_length_eq_zero (Nat.le_zero.mp hl)
    subst hnil
    simp [containsSub, afterSub] at hc
  | succ n ih =>
    intro l acc hl hc
    cases l with
    | nil => simp [containsSub, afterSub] at hc
    | cons c cs =>
      by_cases h : (c0 :: rest).isPrefixOf (c :: cs)
      · have := splitOnSepFuel_length_pos c0 rest n (cs.drop rest.length) []
        simp only [splitOnSepFuel, h, if_true, List.length_cons]
        omega
      · have hc2 : containsSub (c0 :: rest) cs = true := by
          simpa [containsSub, afterSub, h] using hc
        have hl2 : cs.length ≤ n := by
          simpa using hl
        simpa [splitOnSepFuel, h] using ih cs (c :: acc) hl2 hc2

theorem joinSepL_splitOnSepFuel (c0 : Char) (rest : List Char) :
    ∀ (fuel : Nat) (l acc : List Char), l.length ≤ fuel →
      joinSepL (c0 :: rest) (splitOnSepFuel c0 rest fuel l acc)
        = acc.reverse ++ l := by
  intro fuel
  induction fuel with
  | zero =>
    intro l acc hl
    have hnil : l = [] := List.eq_nil_of_length_eq_zero (Nat.le_zero.mp hl)
    subst hnil
    simp [splitOnSepFuel, joinSepL]
  | succ n ih =>
    intro l acc hl
    cases l with
    | nil => simp [splitOnSepFuel, joinSepL]
    | cons c cs =>
      have hcs : cs.length ≤ n := by simpa using hl
      by_cases h : (c0 :: rest).isPrefixOf (c :: cs)
      · have hpre : (c0 :: rest) <+: (c :: cs) := List.isPrefixOf_iff_prefix.mp h
        obtain ⟨t, ht⟩ := hpre
        have htd : cs.drop rest.length = t := by
          have hdrop := congrArg (List.drop (c0 :: rest).length) ht
          rw [List.drop_left] at hdrop
          simpa using hdrop.symm
        have hld : (cs.drop rest.length).length ≤ n := by
          simp only [List.length_drop]
          omega
        have hrec := ih (cs.drop rest.length) [] hld
        obtain ⟨y, ys, hR⟩ : ∃ y ys,
            splitOnSepFuel c0 rest n (cs.drop rest.length) [] = y :: ys := by
          cases hJ : splitOnSepFuel c0 rest n (cs.drop rest.length) [] with
          | nil =>
            have := splitOnSepFuel_length_pos c0 rest n (cs.drop rest.length) []
            rw [hJ] at this
            simp at this
          | cons y ys => exact ⟨y, ys, rfl⟩
        rw [hR] at hrec
        simp only [splitOnSepFuel, h, if_true, hR, joinSepL]
        rw [hrec]
        simp only [List.reverse_nil, List.nil_append, htd]
        rw [List.append_assoc, ht]
      · simpa [splitOnSepFuel, h, List.append_assoc] using ih cs (c :: acc) hcs

theorem mk_append (a b : List Char) :
    String.mk a ++ String.mk b = String.mk (a ++ b) := rfl

theorem joinSep_map_mk (sep : List Char) : ∀ pl : List (List Char),
    joinSep (String.mk sep) (pl.map String.mk) = String.mk (joinSepL sep pl)
  | [] => rfl
  | [x] => rfl
  | x :: y :: xs => by
    have ih := joinSep_map_mk sep (y :: xs)
    simp only [List.map_cons, joinSep, joinSepL, mk_append] at *
    rw [ih, mk_append, List.append_assoc]

/-- Rejoining all split parts with the separator recovers the original
title: the popped last part is the exact segment after the last
occurrence of `" - "` and the rejoined rest the exact remainder. -/
theorem joinSep_splitDash (s : String) : joinSep " - " (splitDash s) = s := by
  have hsep : (" - " : String) = String.mk sepDash := by decide
  rw [splitDash, splitOnSep, hsep, sepDash, joinSep_map_mk,
    joinSepL_splitOnSepFuel chSpace sepDashRest s.toList.length s.toList []
      (le_refl _)]
  rfl

/-! ## C5: title/source derivation -/

/-- C5: when the raw item title contains the separator `" - "`, the
normalized source is the trimmed segment after the last occurrence (the
popped last split part, and rejoining all parts recovers the raw title
exactly) and the normalized title is the earlier parts rejoined with the
separator.  When no separator occurs, the title passes through and the
source falls back to the author field, then the feed-level title, then
the literal "Unknown Source", always trimmed. -/
theorem title_source_split (tabId : String) (feedTitle : Option String)
    (idx : Nat) (item : RssItem) :
    (containsSub sepDash item.title.toList = true →
      (normalizeItem tabId feedTitle idx item).title
          = joinSep " - " (splitDash item.title).dropLast
      ∧ (normalizeItem tabId feedTitle idx item).source
          = jsTrim ((splitDash item.title).getLastD "")
      ∧ 2 ≤ (splitDash item.title).length
      ∧ joinSep " - " (splitDash item.title) = item.title)
    ∧ (containsSub sepDash item.title.toList = false →
      (normalizeItem tabId feedTitle idx item).title = item.title
      ∧ (normalizeItem tabId feedTitle idx item).source
          = jsTrim (sourceFallback item.author feedTitle)) := by
  constructor
  · intro h
    have h' : containsSub sepDash item.title.data = true := h
    refine ⟨?_, ?_, ?_, joinSep_splitDash item.title⟩
    · simp [normalizeItem, deriveTitleSource, h, h']
    · simp [normalizeItem, deriveTitleSource, h, h']
    · have h2 := splitOnSepFuel_length_ge_two chSpace sepDashRest
        item.title.toList.length item.title.toList [] (le_refl _)
        (by rw [← sepDash]; exact h)
      simpa [splitDash, splitOnSep] using h2
  · intro h
    have h' : containsSub sepDash item.title.data = false := h
    constructor <;> simp [normalizeItem, deriveTitleSource, h, h']

def itemTitleSample : RssItem :=
  { title := "Local bus cuts - Example Times", description := none,
    content := none, author := none, thumbnail := none, enclosureLink := none,
    pubDate := 0, guid := none, link := "l" }

def itemAuthorSample : RssItem :=
  { itemTitleSample with title := "No separator here", author := some "Jane Doe" }

theorem title_source_split_witness :
    (normalizeItem "tab-1" none 0 itemTitleSample).title = "Local bus cuts"
    ∧ (normalizeItem "tab-1" none 0 itemTitleSample).source = "Example Times"
    ∧ (normalizeItem "tab-1" none 0 itemAuthorSample).title = "No separator here"
    ∧ (normalizeItem "tab-1" none 0 itemAuthorSample).source = "Jane Doe" := by
  have h1 := (title_source_split "tab-1" none 0 itemTitleSample).1 (by decide)
  have h2 := (title_source_split "tab-1" none 0 itemAuthorSample).2 (by decide)
  refine ⟨?_, ?_, ?_, ?_⟩
  · rw [h1.1]; decide
  · rw [h1.2.1]; decide
  · rw [h2.1]; decide
  · rw [h2.2]; decide

/-! ## C4: the image fallback chain -/

theorem jsTruthy_iff (o : Option String) :
    jsTruthy o = true ↔ ∃ s, o = some s ∧ s ≠ "" := by
  cases o with
  | none => simp [jsTruthy, truthyStr]
  | some s => by_cases h : s = "" <;> simp [jsTruthy, truthyStr, h]

theorem truthyStr_eq_self (o : Option String) (h : jsTruthy o = true) :
    truthyStr o = o := by
  obtain ⟨s, rfl, hs⟩ := (jsTruthy_iff o).mp h
  simp [truthyStr, hs]

theorem truthyStr_eq_none (o : Option String) (h : jsTruthy o = false) :
    truthyStr o = none := by
  cases ho : truthyStr o with
  | none => rfl
  | some s => simp [jsTruthy, ho] at h

theorem truthyStr_ne_empty (o : Option String) (s : String)
    (h : truthyStr o = some s) : s ≠ "" := by
  cases o with
  | none => simp [truthyStr] at h
  | some t =>
    by_cases ht : t = "" <;> simp [truthyStr, ht] at h
    exact h ▸ ht

theorem picsum_ne_empty (t : String) : picsumPlaceholder t ≠ "" := by
  intro h
  have hlen := congrArg String.length h
  have h27 : ("https://picsum.photos/seed/" : String).length = 27 := rfl
  have h8 : ("/800/450" : String).length = 8 := rfl
  have h0 : ("" : String).length = 0 := rfl
  simp only [picsumPlaceholder, String.length_append, h27, h8, h0] at hlen
  omega

/-- C4: the normalized `imageUrl` follows the ordered first-match-wins
fallback chain: the thumbnail field; else the enclosure link; else the
`src` of the first `<img>` parsed from the description; else (when the
earlier steps produced nothing truthy) the `src` of the first `<img>`
parsed from the content body; else a deterministic placeholder seeded by
the raw item title.  The result is never empty and the placeholder is a
function of the title alone. -/
theorem imageUrl_fallback_chain (tabId : String) (feedTitle : Option String)
    (idx : Nat) (item : RssItem) :
    (normalizeItem tabId feedTitle idx item).imageUrl = computeImageUrl item
    ∧ (jsTruthy item.thumbnail = true →
        computeImageUrl item = item.thumbnail.getD "")
    ∧ (jsTruthy item.thumbnail = false → jsTruthy item.enclosureLink = true →
        computeImageUrl item = item.enclosureLink.getD "")
    ∧ (jsTruthy item.thumbnail = false → jsTruthy item.enclosureLink = false →
        jsTruthy item.description = true →
        ∀ s : String, extractImageFromHtml (item.description.getD "") = some s →
        s ≠ "" → computeImageUrl item = s)
    ∧ (jsTruthy (imageStep1 item) = false → jsTruthy item.content = true →
        ∀ s : String, extractImageFromHtml (item.content.getD "") = some s →
        s ≠ "" → computeImageUrl item = s)
    ∧ (jsTruthy (imageStep2 item) = false →
        computeImageUrl item = picsumPlaceholder item.title)
    ∧ computeImageUrl item ≠ "" := by
  refine ⟨rfl, ?_, ?_, ?_, ?_, ?_, ?_⟩
  · intro h
    obtain ⟨s, hs, hne⟩ := (jsTruthy_iff _).mp h
    have h1 : imageStep1 item = item.thumbnail := by simp [imageStep1, h]
    have h2 : imageStep2 item = item.thumbnail := by
      simp [imageStep2, h1, h]
    simp [computeImageUrl, h2, hs, truthyStr, hne]
  · intro ht he
    obtain ⟨s, hs, hne⟩ := (jsTruthy_iff _).mp he
    have h1 : imageStep1 item = item.enclosureLink := by
      simp [imageStep1, ht, he]
    have h2 : imageStep2 item = item.enclosureLink := by
      simp [imageStep2, h1, he]
    simp [computeImageUrl, h2, hs, truthyStr, hne]
  · intro ht he hd s hex hne
    have h1 : imageStep1 item = some s := by
      simp [imageStep1, ht, he, hd, hex]
    have htr : jsTruthy (imageStep1 item) = true := by
      rw [h1]
      exact (jsTruthy_iff _).mpr ⟨s, rfl, hne⟩
    have h2 : imageStep2 item = some s := by
      simp only [imageStep2, htr]
      simpa using h1
    simp [computeImageUrl, h2, truthyStr, hne]
  · intro h1 hc s hex hne
    have h2 : imageStep2 item = some s := by
      simp [imageStep2, h1, hc, hex]
    simp [computeImageUrl, h2, truthyStr, hne]
  · intro h2
    simp [computeImageUrl, truthyStr_eq_none _ h2]
  · cases htr : truthyStr (imageStep2 item) with
    | none => simp [computeImageUrl, htr]; exact picsum_ne_empty item.title
    | some s => simp [computeImageUrl, htr]; exact truthyStr_ne_empty _ s htr

def itemContentOnly : RssItem :=
  { title := "plain title", description := none,
    content := some "<p>text<img class=\"c\" src=\"X\"></p>",
    author := none, thumbnail := none, enclosureLink := none,
    pubDate := 0, guid := none, link := "l" }

theorem imageUrl_fallback_chain_witness :
    (normalizeItem "tab-1" none 0 itemContentOnly).imageUrl = "X"
    ∧ computeImageUrl itemTitleSample = picsumPlaceholder itemTitleSample.title := by
  constructor
  · have h := imageUrl_fallback_chain "tab-1" none 0 itemContentOnly
    rw [h.1]
    exact h.2.2.2.2.1 (by decide) (by decide) "X" (by decide) (by decide)
  · exact (imageUrl_fallback_chain "tab-1" none 0 itemTitleSample).2.2.2.2.2.1
      (by decide)

/-! ## Sorting lemmas for C1 -/

theorem insertDesc_perm (a : NewsArticle) (l : List NewsArticle) :
    List.Perm (insertDesc a l) (a :: l) := by
  induction l with
  | nil => exact List.Perm.refl _
  | cons b bs ih =>
    by_cases h : b.pubDate < a.pubDate
    · simp [insertDesc, h]
    · simp only [insertDesc, h, if_false]
      exact List.Perm.trans (List.Perm.cons b ih) (List.Perm.swap a b bs)

theorem sortDescAux_perm : ∀ (l acc : List NewsArticle),
    List.Perm (sortDescAux acc l) (acc ++ l)
  | [], acc => by simp [sortDescAux]
  | a :: as, acc => by
    simp only [sortDescAux]
    exact List.Perm.trans (sortDescAux_perm as (insertDesc a acc))
      (List.Perm.trans ((insertDesc_perm a acc).append_right as)
        List.perm_middle.symm)

theorem sortDesc_perm (l : List NewsArticle) : List.Perm (sortDesc l) l := by
  simpa [sortDesc] using sortDescAux_perm l []

theorem insertDesc_sorted (a : NewsArticle) (l : List NewsArticle)
    (h : l.Pairwise (fun x y => y.pubDate ≤ x.pubDate)) :
    (insertDesc a l).Pairwise (fun x y => y.pubDate ≤ x.pubDate) := by
  induction l with
  | nil => simp [insertDesc]
  | cons b bs ih =>
    rcases List.pairwise_cons.mp h with ⟨hb, hbs⟩
    by_cases hlt : b.pubDate < a.pubDate
    · simp only [insertDesc, hlt, if_true]
      refine List.pairwise_cons.mpr ⟨?_, h⟩
      intro y hy
      rcases List.mem_cons.mp hy with rfl | hy2
      · omega
      · have := hb y hy2
        omega
    · simp only [insertDesc, hlt, if_false]
      refine List.pairwise_cons.mpr ⟨?_, ih hbs⟩
      intro y hy
      have hy2 : y ∈ a :: bs := (insertDesc_perm a bs).mem_iff.mp hy
      rcases List.mem_cons.mp hy2 with rfl | hy3
      · omega
      · exact hb y hy3

theorem sortDescAux_sorted : ∀ (l acc : List NewsArticle),
    acc.Pairwise (fun x y => y.pubDate ≤ x.pubDate) →
    (sortDescAux acc l).Pairwise (fun x y => y.pubDate ≤ x.pubDate)
  | [], _, h => h
  | a :: as, acc, h => sortDescAux_sorted as _ (insertDesc_sorted a acc h)

theorem sortDesc_sorted (l : List NewsArticle) :
    (sortDesc l).Pairwise (fun x y => y.pubDate ≤ x.pubDate) :=
  sortDescAux_sorted l [] (by simp)

theorem filter_insertDesc_ne (a : NewsArticle) (d : Int) (hd : a.pubDate ≠ d) :
    ∀ l : List NewsArticle,
      (insertDesc a l).filter (fun x => x.pubDate == d)
        = l.filter (fun x => x.pubDate == d)
  | [] => by simp [insertDesc, hd]
  | b :: bs => by
    by_cases hlt : b.pubDate < a.pubDate
    · simp [insertDesc, hlt, List.filter_cons, hd]
    · simp [insertDesc, hlt, List.filter_cons,
        filter_insertDesc_ne a d hd bs]

theorem filter_insertDesc_eq (a : NewsArticle) (d : Int) (hd : a.pubDate = d) :
    ∀ l : List NewsArticle, l.Pairwise (fun x y => y.pubDate ≤ x.pubDate) →
      (insertDesc a l).filter (fun x => x.pubDate == d)
        = l.filter (fun x => x.pubDate == d) ++ [a]
  | [], _ => by simp [insertDesc, hd]
  | b :: bs, h => by
    rcases List.pairwise_cons.mp h with ⟨hb, hbs⟩
    by_cases hlt : b.pubDate < a.pubDate
    · have hnil : (b :: bs).filter (fun x => x.pubDate == d) = [] := by
        rw [List.filter_eq_nil_iff]
        intro x hx
        rcases List.mem_cons.mp hx with rfl | hx2
        · simp only [beq_iff_eq]
          omega
        · have := hb x hx2
          simp only [beq_iff_eq]
          omega
      have hins : insertDesc a (b :: bs) = a :: b :: bs := by
        simp [insertDesc, hlt]
      rw [hins]
      simp [List.filter_cons, hd, hnil]
    · simp only [insertDesc, hlt, if_false]
      by_cases hbd : b.pubDate = d <;>
        simp [hbd, List.filter_cons, filter_insertDesc_eq a d hd bs hbs]

theorem filter_sortDescAux (d : Int) : ∀ (l acc : List NewsArticle),
    acc.Pairwise (fun x y => y.pubDate ≤ x.pubDate) →
      (sortDescAux acc l).filter (fun x => x.pubDate == d)
        = acc.filter (fun x => x.pubDate == d)
            ++ l.filter (fun x => x.pubDate == d)
  | [], acc, _ => by simp [sortDescAux]
  | a :: as, acc, h => by
    have hs := insertDesc_sorted a acc h
    simp only [sortDescAux]
    rw [filter_sortDescAux d as _ hs]
    by_cases hd : a.pubDate = d
    · rw [filter_insertDesc_eq a d hd acc h]
      simp [hd, List.append_assoc]
    · rw [filter_insertDesc_ne a d hd acc]
      simp [hd]

/-- Stability of the sort: articles with any fixed publication instant
appear in the sorted list exactly in their upstream order. -/
theorem filter_sortDesc (d : Int) (l : List NewsArticle) :
    (sortDesc l).filter (fun x => x.pubDate == d)
      = l.filter (fun x => x.pubDate == d) := by
  simpa [sortDesc] using filter_sortDescAux d l [] (by simp)

/-! ## C1: sorted, stable, truncated-after-sorting output -/

/-- C1: a successful fetch returns the normalized items sorted by
publication instant in non-increasing order with ties kept in upstream
order (the result restricted to any fixed instant is a prefix of the
upstream items with that instant, in order), truncated to 12 entries
after sorting; with more than 12 upstream items exactly 12 are returned,
and together with the dropped tail they permute the whole normalized
list while every dropped article is no more recent than any returned
one. -/
theorem fetchNews_sort_truncate (tabs : List TabConfig) (cache : Cache)
    (now : Int) (tabId : String) (tab : TabConfig) (feedTitle : Option String)
    (items : List RssItem)
    (htab : tabs.find? (fun t => t.id == tabId) = some tab)
    (hmiss : ∀ e : CacheEntry, lookupCache cache tabId = some e →
      CACHE_DURATION ≤ now - e.timestamp) :
    (fetchNews tabs cache now tabId (.ok feedTitle items)).outcome
        = .success (sortAndTruncate (normalizeItems tabId feedTitle items))
    ∧ (sortAndTruncate (normalizeItems tabId feedTitle items)).Pairwise
        (fun a b => b.pubDate ≤ a.pubDate)
    ∧ (∀ d : Int,
        (sortAndTruncate (normalizeItems tabId feedTitle items)).filter
            (fun x => x.pubDate == d)
          <+: (normalizeItems tabId feedTitle items).filter
            (fun x => x.pubDate == d))
    ∧ (sortAndTruncate (normalizeItems tabId feedTitle items)).length
        = min 12 items.length
    ∧ (12 < items.length →
        (sortAndTruncate (normalizeItems tabId feedTitle items)).length = 12)
    ∧ List.Perm
        (sortAndTruncate (normalizeItems tabId feedTitle items)
          ++ (sortDesc (normalizeItems tabId feedTitle items)).drop 12)
        (normalizeItems tabId feedTitle items)
    ∧ (∀ a ∈ sortAndTruncate (normalizeItems tabId feedTitle items),
       ∀ b ∈ (sortDesc (normalizeItems tabId feedTitle items)).drop 12,
        b.pubDate ≤ a.pubDate) := by
  have hlen : (normalizeItems tabId feedTitle items).length = items.length := by
    simp [normalizeItems]
  refine ⟨?_, ?_, ?_, ?_, ?_, ?_, ?_⟩
  · unfold fetchNews
    rw [htab]
    cases hl : lookupCache cache tabId with
    | some e =>
      have := hmiss e hl
      have hstale : ¬(now - e.timestamp < CACHE_DURATION) := by omega
      simp [hstale, fetchRemote_ok]
    | none => simp [fetchRemote_ok]
  · exact List.Pairwise.sublist (List.take_sublist _ _) (sortDesc_sorted _)
  · intro d
    have := List.take_prefix 12 (sortDesc (normalizeItems tabId feedTitle items))
    have hpre := this.filter (fun x => x.pubDate == d)
    rw [filter_sortDesc] at hpre
    exact hpre
  · rw [sortAndTruncate, List.length_take, (sortDesc_perm _).length_eq, hlen]
  · intro h
    rw [sortAndTruncate, List.length_take, (sortDesc_perm _).length_eq, hlen]
    omega
  · have heq : sortAndTruncate (normalizeItems tabId feedTitle items)
        ++ (sortDesc (normalizeItems tabId feedTitle items)).drop 12
        = sortDesc (normalizeItems tabId feedTitle items) :=
      List.take_append_drop 12 _
    rw [heq]
    exact sortDesc_perm _
  · intro a ha b hb
    have hsorted := sortDesc_sorted (normalizeItems tabId feedTitle items)
    rw [← List.take_append_drop 12
      (sortDesc (normalizeItems tabId feedTitle items))] at hsorted
    exact (List.pairwise_append.mp hsorted).2.2 a ha b hb

theorem fetchNews_sort_truncate_witness :
    (fetchNews [tabSample] [] 0 "tab-1" (.ok none [itemTitleSample])).outcome
      = .success (sortAndTruncate (normalizeItems "tab-1" none [itemTitleSample])) :=
  (fetchNews_sort_truncate [tabSample] [] 0 "tab-1" tabSample none
    [itemTitleSample] (by decide)
    (fun e he => by simp [lookupCache] at he)).1

end NewsApp
